import Mathlib

/-!
Verification of `Finance_Analysis.py`: a single-pass batch transform that
cleans a bank-exported CSV ledger.  The script's functions are shallowly
embedded below; money values are modelled as rationals (the floating-point
values appearing in the claims are dyadic and exact).
-/

namespace FinanceAnalysis

/-! ### Character-list string helpers

Python string primitives used by the script (`in`, `strip`, `lower`,
`" ".join`, `split("/")`) modelled over `List Char`. -/

/-- `startsWithL pat s` : `pat` is a prefix of `s` (used to model Python
substring search). -/
def startsWithL : List Char → List Char → Bool
  | [], _ => true
  | _ :: _, [] => false
  | c :: p, d :: t => c = d && startsWithL p t

/-- `occursIn pat s` : Python `pat in s` — `pat` occurs contiguously in `s`. -/
def occursIn (pat : List Char) : List Char → Bool
  | [] => startsWithL pat []
  | s@(_ :: t) => startsWithL pat s || occursIn pat t

/-- Python `pat in s` on strings. -/
def strIn (pat s : String) : Bool := occursIn pat.data s.data

/-- Python `str.strip()`: drop leading and trailing whitespace. -/
def trimChars (l : List Char) : List Char :=
  ((l.dropWhile Char.isWhitespace).reverse.dropWhile Char.isWhitespace).reverse

/-- Python `str.lower()` (ASCII case folding suffices for the script's
keywords). -/
def lowerChars (l : List Char) : List Char := l.map Char.toLower

/-- `c.strip().lower()` on a cell, as done in the header-locating loop. -/
def normCell (c : String) : String := String.mk (lowerChars (trimChars c.data))

/-- Python `" ".join(cells)`. -/
def joinWithSpace : List (List Char) → List Char
  | [] => []
  | [x] => x
  | x :: xs => x ++ ' ' :: joinWithSpace xs

/-! ### Header locator (`Finance_Analysis.py` lines 29-35)

For each row in order: lower-case and strip every cell, join with spaces,
and test `("date" in joined) and any(k in joined for k in ("particular",
"narration", "description"))`.  The first qualifying index is returned. -/

/-- The joined, lowered, stripped search string of a row. -/
def joinedRow (row : List String) : List Char :=
  joinWithSpace (row.map (fun c => (normCell c).data))

/-- The script's header test on one row. -/
def rowQualifies (row : List String) : Bool :=
  let j := joinedRow row
  occursIn "date".data j &&
    (occursIn "particular".data j || occursIn "narration".data j ||
     occursIn "description".data j)

/-- `header_row_idx`: index of the first row passing `rowQualifies`
(`None` when no row qualifies, upon which the script exits). -/
def header_row_idx : List (List String) → Option Nat
  | [] => none
  | r :: rs => if rowQualifies r then some 0 else (header_row_idx rs).map (· + 1)

/-- The header test as worded by the claim: date indicator plus one of the
description-indicator tokens "description", "narration",
"summary-of-transaction" (both hyphen and space readings are included, so
the comparison below does not depend on that choice). -/
def claimRowQualifies (row : List String) : Bool :=
  let j := joinedRow row
  occursIn "date".data j &&
    (occursIn "description".data j || occursIn "narration".data j ||
     occursIn "summary-of-transaction".data j ||
     occursIn "summary of transaction".data j)

/-! ### Numeric cleaning (`clean_number`, lines 89-100)

`clean_number` maps each cell through: drop every character that is not a
digit, a dot or a minus; replace an empty result by `"0"`; parse with
`pd.to_numeric(errors="coerce")`; `NaN → 0`.  Values are modelled as `ℚ`
(every numeral in the claims is dyadic, so this is exact). -/

/-- Value of a digit string (most significant first). -/
def digitsVal (l : List Char) : ℕ := l.foldl (fun a c => 10 * a + (c.toNat - 48)) 0

/-- Parse an unsigned decimal numeral (digits with at most one dot, at
least one digit), as accepted by Python `float` on sign-free input;
`(n, k)` represents `n / 10 ^ k`. -/
def parseFracScaled (cs : List Char) : Option (ℕ × ℕ) :=
  match cs.splitOn '.' with
  | [a] => if !a.isEmpty && a.all Char.isDigit then some (digitsVal a, 0) else none
  | [a, b] =>
      if (!a.isEmpty || !b.isEmpty) && a.all Char.isDigit && b.all Char.isDigit then
        some (digitsVal (a ++ b), b.length)
      else none
  | _ => none

/-- Parse a signed decimal numeral, as `pd.to_numeric` / Python `float` do
on the character set reaching them here (scientific notation, special
values and thousands separators cannot occur after stripping and are not
modelled); `(n, k)` represents `n / 10 ^ k`. -/
def parseScaled : List Char → Option (ℤ × ℕ)
  | '-' :: rest => (parseFracScaled rest).map (fun p => (-(p.1 : ℤ), p.2))
  | '+' :: rest => (parseFracScaled rest).map (fun p => ((p.1 : ℤ), p.2))
  | cs => (parseFracScaled cs).map (fun p => ((p.1 : ℤ), p.2))

/-- The rational value of a scaled decimal. -/
def scaledVal (p : ℤ × ℕ) : ℚ := (p.1 : ℚ) / (10 : ℚ) ^ p.2

/-- Parse a signed decimal numeral to its rational value. -/
def parseDecimal (cs : List Char) : Option ℚ := (parseScaled cs).map scaledVal

/-- `str.replace(r"[^\d\.-]", "", regex=True)`: keep digits, dots, minus. -/
def stripNonNumeric (s : String) : List Char :=
  s.data.filter (fun c => c.isDigit || c == '.' || c == '-')

/-- The character list handed to the parser: the stripped cell, an empty
result replaced by `"0"`. -/
def cleanTarget (s : String) : List Char :=
  let stripped := stripNonNumeric s
  if stripped.isEmpty then "0".data else stripped

/-- `clean_number` on one cell. -/
def clean_number (s : String) : ℚ := (parseDecimal (cleanTarget s)).getD 0

/-- `pd.to_numeric(s, errors="coerce")` on one serial cell (line 120):
`none` models `NaN`. -/
def pdToNumeric (s : String) : Option ℚ := parseDecimal (trimChars s.data)

/-- Signed amount of one row (line 107): cleaned deposit minus cleaned
withdrawal. -/
def amount (withdrawCell depositCell : String) : ℚ :=
  clean_number depositCell - clean_number withdrawCell

/-! ### Description extraction (lines 80-84) -/

/-- `between_third_and_fourth_slash`: split on `/`; if more than 3 parts,
return part index 3, else the input unchanged. -/
def between_third_and_fourth_slash (x : String) : String :=
  let parts := x.data.splitOn '/'
  if 3 < parts.length then String.mk (parts.getD 3 []) else x

/-! ### Column resolution (`find`, lines 48-66)

`find(keywords)` compiles `"|".join(keywords)` and returns the first
column (left to right) on which the regex alternation finds a match.
A keyword is modelled as a matcher `String → Bool`; for the plain-text
keywords of the mandatory fields, regex search is substring occurrence.
The serial-number keyword list uses `\b` word boundaries and `^`, modelled
by `occursBounded` / prefix test below. -/

/-- A column matcher: the predicate `pat.search(col)` of one keyword. -/
abbrev Matcher := String → Bool

/-- `find`: first column matched by any of the matchers. -/
def findMatch (ms : List Matcher) (cols : List String) : Option String :=
  cols.find? (fun c => ms.any (fun m => m c))

/-- Regex-search of a metacharacter-free keyword is substring occurrence. -/
def substrMatcher (k : String) : Matcher := fun c => strIn k c

/-- `find` specialised to plain-text keywords. -/
def find (keywords : List String) (cols : List String) : Option String :=
  findMatch (keywords.map substrMatcher) cols

/-- Regex word character `\w` (ASCII). -/
def isWordChar (c : Char) : Bool := c.isAlphanum || c == '_'

/-- `w` is a prefix of `s` and the character following it (if any) is not a
word character (the trailing `\b`). -/
def boundaryOkAfter : List Char → List Char → Bool
  | [], [] => true
  | [], d :: _ => !isWordChar d
  | _ :: _, [] => false
  | c :: p, d :: t => c = d && boundaryOkAfter p t

/-- Search for `w` with word boundaries on both sides; `prev` is the
character just before the current position (`none` at the start). -/
def occursBoundedFrom (w : List Char) (prev : Option Char) : List Char → Bool
  | [] => (match prev with | none => true | some c => !isWordChar c) && boundaryOkAfter w []
  | d :: t =>
    ((match prev with | none => true | some c => !isWordChar c) &&
      boundaryOkAfter w (d :: t)) || occursBoundedFrom w (some d) t

/-- Regex search of `\b w \b` for a word starting and ending in word
characters. -/
def occursBounded (w s : String) : Bool := occursBoundedFrom w.data none s.data

/-- The serial-number keyword list
`[r"\bsl\b", r"\bs[._ ]?no\b", r"\bserial\b", r"\bsr\b", r"\bindex\b",
r"^unnamed"]` as matchers (the optional character class is expanded). -/
def slnoMatchers : List Matcher :=
  [fun c => occursBounded "sl" c,
   fun c => occursBounded "sno" c || occursBounded "s.no" c ||
            occursBounded "s_no" c || occursBounded "s no" c,
   fun c => occursBounded "serial" c,
   fun c => occursBounded "sr" c,
   fun c => occursBounded "index" c,
   fun c => startsWithL "unnamed".data c.data]

def dateKeywords : List String := ["date"]
def particularKeywords : List String := ["particular", "narration", "description"]
def withdrawKeywords : List String := ["withdraw", "debit"]
def depositKeywords : List String := ["deposit", "credit"]

/-- Diagnostics printed when a mandatory column is missing (lines 54-56):
the attempted keyword list and the detected header cells. -/
structure ColumnResolutionError where
  keywords : List String
  header : List String
deriving DecidableEq

/-- The resolved physical column of each logical field. -/
structure Bindings where
  slno : Option String
  date : String
  partic : String
  withdraw : String
  deposit : String
deriving DecidableEq

/-- Lines 62-66: resolve all five fields; the first failing mandatory
field aborts (`sys.exit(1)`), carrying its keywords and the header. -/
def resolveColumns (cols : List String) : Except ColumnResolutionError Bindings :=
  match find dateKeywords cols with
  | none => .error ⟨dateKeywords, cols⟩
  | some d =>
    match find particularKeywords cols with
    | none => .error ⟨particularKeywords, cols⟩
    | some p =>
      match find withdrawKeywords cols with
      | none => .error ⟨withdrawKeywords, cols⟩
      | some w =>
        match find depositKeywords cols with
        | none => .error ⟨depositKeywords, cols⟩
        | some dep => .ok ⟨findMatch slnoMatchers cols, d, p, w, dep⟩

/-- The resolver as worded by the claim (pattern priority): the first
pattern-list entry that matches any column wins, and among columns
matching that entry the leftmost is taken. -/
def claimPatternPriorityFind (ms : List Matcher) (cols : List String) : Option String :=
  match ms with
  | [] => none
  | m :: rest =>
    match cols.find? (fun c => m c) with
    | some c => some c
    | none => claimPatternPriorityFind rest cols

/-! ### Assembly: forward fill, sort, output schema (lines 112-121) -/

/-- `fillna(method="ffill")` on the serial column: a `none` (`NaN`)
inherits the nearest preceding `some`; leading `none`s stay `none`. -/
def ffillAux : Option ℚ → List (Option ℚ) → List (Option ℚ)
  | _, [] => []
  | last, none :: t => last :: ffillAux last t
  | _, some v :: t => some v :: ffillAux (some v) t

def ffill (l : List (Option ℚ)) : List (Option ℚ) := ffillAux none l

/-- The nearest valid serial at or before position `i` (the value
forward-fill propagates into position `i`). -/
def lastValidUpTo (l : List (Option ℚ)) (i : ℕ) : Option ℚ :=
  (l.take (i + 1)).foldl (fun acc x => match x with | some v => some v | none => acc) none

/-- One output row of the cleaned ledger: `Sl. No.` (`none` = `NaN`),
`Tran Date`, `Particulars`, `amount`. -/
structure OutRow where
  slno : Option ℚ
  date : String
  particulars : String
  amt : ℚ
deriving DecidableEq

/-- A default row (used only as the out-of-range default of `List.getD`). -/
def defOutRow : OutRow := ⟨none, "", "", 0⟩

/-- Sort key: ascending on the serial value. -/
def serialLE (a b : OutRow) : Prop := a.slno.getD 0 ≤ b.slno.getD 0

instance : DecidableRel serialLE := fun a b =>
  inferInstanceAs (Decidable (a.slno.getD 0 ≤ b.slno.getD 0))

/-- `sort_values("Sl. No.")` (line 121): rows with a numeric serial sorted
ascending, rows whose serial is `NaN` placed after them in original order
(pandas `na_position="last"`).  pandas' default `kind="quicksort"` leaves
the relative order of equal numeric serials unspecified; the numeric part
is modelled with a stable insertion sort, and no tie-order-sensitive
property is derived from that modelling choice. -/
def sortBySerial (rows : List OutRow) : List OutRow :=
  List.insertionSort serialLE (rows.filter (fun r => r.slno.isSome)) ++
    rows.filter (fun r => r.slno.isNone)

/-- `df[col]` access of one cell by column name (first occurrence of the
label, cells beyond the row's width read as empty). -/
def cellOf (header : List String) (row : List String) (col : String) : String :=
  match header.indexOf? col with
  | some i => row.getD i ""
  | none => ""

/-- utf-8-sig re-decode of a header cell: drop one leading BOM. -/
def stripBOM (s : String) : String :=
  match s.data with
  | c :: t => if c.toNat = 0xFEFF then String.mk t else s
  | [] => s

/-- Line 40: BOM-strip, strip and lower-case one header cell. -/
def normHeaderCell (c : String) : String :=
  String.mk (lowerChars (trimChars (stripBOM c).data))

/-- Lines 105-121: clean both money columns, build the signed amount,
attach serials (column values through `pd.to_numeric` + forward fill when
a serial column exists, the fabricated sequence `1..N` otherwise), and
sort by serial. -/
def assemble (header : List String) (b : Bindings) (data : List (List String)) :
    List OutRow :=
  let serials : List (Option ℚ) :=
    match b.slno with
    | some sc => ffill (data.map (fun r => pdToNumeric (cellOf header r sc)))
    | none => ffill ((List.range data.length).map (fun k => some ((k + 1 : ℕ) : ℚ)))
  let rows : List OutRow := data.map (fun r =>
    { slno := none
      date := cellOf header r b.date
      particulars := between_third_and_fourth_slash (cellOf header r b.partic)
      amt := amount (cellOf header r b.withdraw) (cellOf header r b.deposit) })
  sortBySerial ((serials.zip rows).map (fun p => { p.2 with slno := p.1 }))

/-- The two fatal, user-reported failures of the script. -/
inductive PipelineError where
  | headerNotFound : PipelineError
  | columnResolution : ColumnResolutionError → PipelineError
deriving DecidableEq

/-- The whole script after loading: locate the header, resolve columns,
assemble.  A `.error` result models `sys.exit` with a nonzero status
before the writer (line 127) is reached, so no output exists. -/
def program (rows : List (List String)) : Except PipelineError (List OutRow) :=
  match header_row_idx rows with
  | none => .error .headerNotFound
  | some i =>
    let header := (rows.getD i []).map normHeaderCell
    let data := rows.drop (i + 1)
    match resolveColumns header with
    | .error e => .error (.columnResolution e)
    | .ok b => .ok (assemble header b data)

/-! ## Supporting lemmas -/

/-- `List.find?` returns the leftmost element satisfying the predicate:
characterisation by index. -/
theorem find?_first_iff {α : Type} (p : α → Bool) (d : α) :
    ∀ (l : List α) (a : α),
      l.find? p = some a ↔
        ∃ i, i < l.length ∧ l.getD i d = a ∧ p a = true ∧
          ∀ j, j < i → p (l.getD j d) = false := by
  intro l
  induction l with
  | nil => intro a; simp [List.find?]
  | cons x t ih =>
    intro a
    cases hp : p x with
    | true =>
      simp only [List.find?, hp]
      constructor
      · rintro ⟨rfl⟩
        exact ⟨0, Nat.succ_pos _, rfl, hp, fun j hj => absurd hj (Nat.not_lt_zero j)⟩
      · rintro ⟨i, hi, hget, hpa, hj⟩
        cases i with
        | zero => simp only [List.getD_cons_zero] at hget; rw [hget]
        | succ i' =>
          have h0 := hj 0 (Nat.succ_pos i')
          simp only [List.getD_cons_zero] at h0
          rw [hp] at h0
          exact absurd h0 (by simp)
    | false =>
      simp only [List.find?, hp]
      rw [ih a]
      constructor
      · rintro ⟨i, hi, hget, hpa, hj⟩
        refine ⟨i + 1, Nat.succ_lt_succ hi, by simpa using hget, hpa, ?_⟩
        intro j hj'
        cases j with
        | zero => simpa using hp
        | succ j' =>
          have := hj j' (Nat.lt_of_succ_lt_succ hj')
          simpa using this
      · rintro ⟨i, hi, hget, hpa, hj⟩
        cases i with
        | zero =>
          simp only [List.getD_cons_zero] at hget
          rw [← hget] at hpa
          rw [hp] at hpa
          exact absurd hpa (by simp)
        | succ i' =>
          refine ⟨i', Nat.lt_of_succ_lt_succ hi, by simpa using hget, hpa, ?_⟩
          intro j hj'
          have := hj (j + 1) (Nat.succ_lt_succ hj')
          simpa using this

/-! ## Claims -/

/-- C1: for every data row, the output amount is the cleaned deposit minus
the cleaned withdrawal (positive = net credit, negative = net debit); a
row with withdrawal `"500.00"` and deposit `""` yields amount `-500`. -/
theorem c1_amount_is_deposit_minus_withdrawal :
    (∀ wd dep : String, amount wd dep = clean_number dep - clean_number wd) ∧
    amount "500.00" "" = -500 := by
  refine ⟨fun _ _ => rfl, ?_⟩
  have h1 : parseScaled (cleanTarget "500.00") = some (50000, 2) := by decide
  have h2 : parseScaled (cleanTarget "") = some (0, 0) := by decide
  simp only [amount, clean_number, parseDecimal, h1, h2, Option.map_some',
    Option.getD_some, scaledVal]
  norm_num

/-- C4: numeric cleaning keeps only digits, dots and minus signs; an
unparseable remainder becomes `0` (total, never an error); and
`clean_number` sends `""`, `"abc"`, `"₹1,234.50"` to `0`, `0`, `1234.5`. -/
theorem c4_clean_number_spec :
    (∀ s : String, ∀ c ∈ stripNonNumeric s, c.isDigit = true ∨ c = '.' ∨ c = '-') ∧
    (∀ s : String, parseScaled (cleanTarget s) = none → clean_number s = 0) ∧
    clean_number "" = 0 ∧ clean_number "abc" = 0 ∧ clean_number "₹1,234.50" = 1234.5 := by
  refine ⟨?_, ?_, ?_, ?_, ?_⟩
  · intro s c hc
    have h := (List.mem_filter.mp hc).2
    simp only [Bool.or_eq_true, beq_iff_eq] at h
    tauto
  · intro s h
    rw [clean_number, parseDecimal, h]
    rfl
  · have h : parseScaled (cleanTarget "") = some (0, 0) := by decide
    simp only [clean_number, parseDecimal, h, Option.map_some', Option.getD_some, scaledVal]
    norm_num
  · have h : parseScaled (cleanTarget "abc") = some (0, 0) := by decide
    simp only [clean_number, parseDecimal, h, Option.map_some', Option.getD_some, scaledVal]
    norm_num
  · have h : parseScaled (cleanTarget "₹1,234.50") = some (123450, 2) := by decide
    simp only [clean_number, parseDecimal, h, Option.map_some', Option.getD_some, scaledVal]
    norm_num

/-- C4 witness: a concrete unparseable remainder (`"1.2.3"` keeps two
dots) is coerced to `0`. -/
theorem c4_clean_number_witness :
    parseScaled (cleanTarget "1.2.3") = none ∧ clean_number "1.2.3" = 0 :=
  ⟨by decide, c4_clean_number_spec.2.1 "1.2.3" (by decide)⟩

/-- C5: splitting the description on `/`: with at least 4 segments the
field becomes segment index 3, otherwise it is unchanged;
`"UPI/123/456/GROCERY/789" → "GROCERY"`, `"CASH DEPOSIT"` unchanged. -/
theorem c5_description_extraction :
    (∀ x : String,
      (3 < (x.data.splitOn '/').length →
        between_third_and_fourth_slash x = String.mk ((x.data.splitOn '/').getD 3 [])) ∧
      ((x.data.splitOn '/').length ≤ 3 → between_third_and_fourth_slash x = x)) ∧
    between_third_and_fourth_slash "UPI/123/456/GROCERY/789" = "GROCERY" ∧
    between_third_and_fourth_slash "CASH DEPOSIT" = "CASH DEPOSIT" := by
  refine ⟨fun x => ⟨fun h => ?_, fun h => ?_⟩, by decide, by decide⟩
  · simp only [between_third_and_fourth_slash]
    rw [if_pos h]
  · simp only [between_third_and_fourth_slash]
    rw [if_neg (Nat.not_lt.mpr h)]

/-- C5 witness: the two conditional branches applied at concrete inputs. -/
theorem c5_description_extraction_witness :
    between_third_and_fourth_slash "UPI/123/456/GROCERY/789" =
      String.mk (("UPI/123/456/GROCERY/789".data.splitOn '/').getD 3 []) ∧
    between_third_and_fourth_slash "CASH DEPOSIT" = "CASH DEPOSIT" :=
  ⟨(c5_description_extraction.1 "UPI/123/456/GROCERY/789").1 (by decide),
   (c5_description_extraction.1 "CASH DEPOSIT").2 (by decide)⟩

/-- C2 counterexample: on the single row `["date", "particulars"]` the
locator returns index 0, yet that row contains none of the claim's
description-indicator tokens ("description", "narration",
"summary-of-transaction"), so the claimed characterisation is false: the
code's second token is "particular", not "summary-of-transaction". -/
theorem c2_counterexample :
    header_row_idx [["date", "particulars"]] = some 0 ∧
    claimRowQualifies ["date", "particulars"] = false := by
  constructor
  · decide
  · decide

/-- C2 (amended): the locator returns the index of the first row (and no
later qualifying row) whose cells, lower-cased, trimmed and joined,
contain `"date"` and at least one of `"particular"`, `"narration"`,
`"description"`. -/
theorem c2_header_locator_first_row (rows : List (List String)) (i : ℕ) :
    header_row_idx rows = some i ↔
      i < rows.length ∧ rowQualifies (rows.getD i []) = true ∧
        ∀ j, j < i → rowQualifies (rows.getD j []) = false := by
  induction rows generalizing i with
  | nil => simp [header_row_idx]
  | cons r rs ih =>
    cases hq : rowQualifies r with
    | true =>
      simp only [header_row_idx, hq, if_true]
      constructor
      · intro h
        have h0 : 0 = i := by injection h
        subst h0
        exact ⟨Nat.succ_pos _, by simpa using hq, fun j hj => absurd hj (Nat.not_lt_zero j)⟩
      · rintro ⟨hi, hget, hj⟩
        cases i with
        | zero => rfl
        | succ i' =>
          have h0 := hj 0 (Nat.succ_pos i')
          simp only [List.getD_cons_zero] at h0
          rw [hq] at h0
          exact absurd h0 (by simp)
    | false =>
      simp only [header_row_idx, hq, if_false]
      constructor
      · intro h
        rcases Option.map_eq_some'.mp h with ⟨i', hi', rfl⟩
        obtain ⟨hi, hget, hj⟩ := (ih i').mp hi'
        refine ⟨Nat.succ_lt_succ hi, by simpa using hget, ?_⟩
        intro j hj'
        cases j with
        | zero => simpa using hq
        | succ j' =>
          have := hj j' (Nat.lt_of_succ_lt_succ hj')
          simpa using this
      · rintro ⟨hi, hget, hj⟩
        cases i with
        | zero =>
          simp only [List.getD_cons_zero] at hget
          rw [hq] at hget
          exact absurd hget (by simp)
        | succ i' =>
          have hrs : header_row_idx rs = some i' := by
            refine (ih i').mpr ⟨Nat.lt_of_succ_lt_succ hi, by simpa using hget, ?_⟩
            intro j hj'
            have := hj (j + 1) (Nat.succ_lt_succ hj')
            simpa using this
          rw [hrs]
          rfl

/-- C2 witness: on a concrete input the first qualifying index (row 1) is
returned. -/
theorem c2_header_locator_witness :
    header_row_idx [["junk"], ["date", "narration"]] = some 1 :=
  (c2_header_locator_first_row [["junk"], ["date", "narration"]] 1).mpr
    ⟨by decide, by decide, by
      intro j hj
      have hj0 : j = 0 := by omega
      subst hj0
      decide⟩

/-- C3 counterexample: for the withdrawal field (patterns `withdraw`,
`debit`) over the header `["debit", "withdrawal"]`, the script's `find`
returns the leftmost matching column `"debit"`, while the claimed
pattern-priority rule would return `"withdrawal"` (the first pattern-list
entry `withdraw` matches only that column). -/
theorem c3_counterexample :
    find withdrawKeywords ["debit", "withdrawal"] = some "debit" ∧
    claimPatternPriorityFind (withdrawKeywords.map substrMatcher)
      ["debit", "withdrawal"] = some "withdrawal" ∧
    find withdrawKeywords ["debit", "withdrawal"] ≠
      claimPatternPriorityFind (withdrawKeywords.map substrMatcher)
        ["debit", "withdrawal"] := by
  refine ⟨by decide, by decide, by decide⟩

/-- C3 (amended): for every matcher list (logical field) and header list,
the resolver returns the leftmost column matched by ANY pattern of the
list; pattern-list order confers no priority. -/
theorem c3_resolver_takes_leftmost_column (ms : List Matcher) (cols : List String)
    (c : String) :
    findMatch ms cols = some c ↔
      ∃ i, i < cols.length ∧ cols.getD i "" = c ∧ (ms.any fun m => m c) = true ∧
        ∀ j, j < i → (ms.any fun m => m (cols.getD j "")) = false :=
  find?_first_iff (fun col => ms.any fun m => m col) "" cols c

/-- C3 witness: the deposit field resolves to the leftmost matching column
of a concrete header. -/
theorem c3_resolver_witness :
    findMatch (depositKeywords.map substrMatcher) ["tran date", "credit amt", "deposits"] =
      some "credit amt" :=
  (c3_resolver_takes_leftmost_column (depositKeywords.map substrMatcher)
      ["tran date", "credit amt", "deposits"] "credit amt").mpr
    ⟨1, by decide, by decide, by decide, by
      intro j hj
      have hj0 : j = 0 := by omega
      subst hj0
      decide⟩

/-- A parse of a minus-free character list has a nonnegative numerator. -/
theorem parseScaled_nonneg (cs : List Char) (h : '-' ∉ cs) :
    ∀ p : ℤ × ℕ, parseScaled cs = some p → 0 ≤ p.1 := by
  intro p hp
  rw [parseScaled.eq_def] at hp
  split at hp
  · rename_i rest
    exact absurd (List.mem_cons_self _ _) h
  · rcases Option.map_eq_some'.mp hp with ⟨q, _, rfl⟩
    exact Int.natCast_nonneg q.1
  · rcases Option.map_eq_some'.mp hp with ⟨q, _, rfl⟩
    exact Int.natCast_nonneg q.1

/-- A nonnegative numerator gives a nonnegative value. -/
theorem scaledVal_nonneg (p : ℤ × ℕ) (h : 0 ≤ p.1) : 0 ≤ scaledVal p := by
  unfold scaledVal
  apply div_nonneg
  · exact_mod_cast h
  · positivity

/-- C6 counterexample: the cell `"-5"` cleans to `-5 < 0`: stripping keeps
the minus sign, so cleaned money fields are not nonnegative in general. -/
theorem c6_counterexample : clean_number "-5" < 0 := by
  have h : parseScaled (cleanTarget "-5") = some (-5, 0) := by decide
  simp only [clean_number, parseDecimal, h, Option.map_some', Option.getD_some, scaledVal]
  norm_num

/-- C6 (amended): a cleaned money field is nonnegative whenever the raw
cell contains no minus character; the minus sign is the only route to a
negative cleaned value. -/
theorem c6_clean_number_nonneg (s : String) (h : '-' ∉ s.data) : 0 ≤ clean_number s := by
  have hct : '-' ∉ cleanTarget s := by
    simp only [cleanTarget]
    by_cases he : (stripNonNumeric s).isEmpty
    · rw [if_pos he]
      decide
    · rw [if_neg he]
      intro hmem
      exact h (List.mem_filter.mp hmem).1
  rw [clean_number, parseDecimal]
  cases hp : parseScaled (cleanTarget s) with
  | none => simp
  | some p =>
    simp only [Option.map_some', Option.getD_some]
    exact scaledVal_nonneg p (parseScaled_nonneg _ hct p hp)

/-- C6 witness: a concrete minus-free cell cleans to a nonnegative value. -/
theorem c6_clean_number_nonneg_witness :
    '-' ∉ "₹1,234.50".data ∧ 0 ≤ clean_number "₹1,234.50" :=
  ⟨by decide, c6_clean_number_nonneg "₹1,234.50" (by decide)⟩

/-- Position `i` of a forward fill with accumulator `last` is the fold of
the first `i + 1` entries over `last`. -/
theorem ffillAux_getD (l : List (Option ℚ)) :
    ∀ (last : Option ℚ) (i : ℕ), i < l.length →
      (ffillAux last l).getD i none =
        (l.take (i + 1)).foldl
          (fun acc x => match x with | some v => some v | none => acc) last := by
  induction l with
  | nil => intro last i hi; simp at hi
  | cons x t ih =>
    intro last i hi
    cases x with
    | none =>
      cases i with
      | zero => rfl
      | succ i' =>
        simp only [ffillAux, List.getD_cons_succ]
        rw [ih last i' (Nat.lt_of_succ_lt_succ hi)]
        rfl
    | some v =>
      cases i with
      | zero => rfl
      | succ i' =>
        simp only [ffillAux, List.getD_cons_succ]
        rw [ih (some v) i' (Nat.lt_of_succ_lt_succ hi)]
        rfl

/-- Forward fill, characterised positionally: position `i` holds the
nearest valid value at or before `i`. -/
theorem ffill_getD (l : List (Option ℚ)) (i : ℕ) (hi : i < l.length) :
    (ffill l).getD i none = lastValidUpTo l i :=
  ffillAux_getD l none i hi

/-- A prefix of missing values leaves nothing to propagate. -/
theorem lastValidUpTo_none (l : List (Option ℚ)) :
    ∀ i : ℕ, (∀ j, j ≤ i → l.getD j none = none) → lastValidUpTo l i = none := by
  induction l with
  | nil => intro i _; rfl
  | cons x t ih =>
    intro i h
    have hx : x = none := by
      have := h 0 (Nat.zero_le i)
      simpa using this
    subst hx
    cases i with
    | zero => rfl
    | succ i' =>
      have hstep : lastValidUpTo (none :: t) (i' + 1) = lastValidUpTo t i' := rfl
      rw [hstep]
      refine ih i' (fun j hj => ?_)
      have := h (j + 1) (Nat.succ_le_succ hj)
      simpa using this

/-- C8: serials are forward-filled: position `i` of the filled list is the
nearest valid serial at or before `i`; the serial column `1, "", "", 2`
fills to `1, 1, 1, 2`. -/
theorem c8_serial_forward_fill :
    (∀ (l : List (Option ℚ)) (i : ℕ), i < l.length →
      (ffill l).getD i none = lastValidUpTo l i) ∧
    ffill (["1", "", "", "2"].map pdToNumeric) = [some 1, some 1, some 1, some 2] := by
  constructor
  · exact fun l i hi => ffill_getD l i hi
  · have h1 : pdToNumeric "1" = some 1 := by
      have h : parseScaled (trimChars "1".data) = some (1, 0) := by decide
      rw [pdToNumeric, parseDecimal, h]
      simp only [Option.map_some']
      norm_num [scaledVal]
    have h2 : pdToNumeric "" = none := by decide
    have h4 : pdToNumeric "2" = some 2 := by
      have h : parseScaled (trimChars "2".data) = some (2, 0) := by decide
      rw [pdToNumeric, parseDecimal, h]
      simp only [Option.map_some']
      norm_num [scaledVal]
    simp only [List.map_cons, List.map_nil, h1, h2, h4]
    simp [ffill, ffillAux]

/-- C8 witness: the positional characterisation applied at a concrete
list and index. -/
theorem c8_serial_forward_fill_witness :
    (ffill [some 1, none]).getD 1 none = lastValidUpTo [some 1, none] 1 :=
  c8_serial_forward_fill.1 [some 1, none] 1 (by decide)

/-- A failing `resolveColumns` reports the header it searched and the
keyword list of a mandatory field that matched no column. -/
theorem resolveColumns_error_cases (cols : List String) (e : ColumnResolutionError)
    (h : resolveColumns cols = .error e) :
    e.header = cols ∧
    (e.keywords = dateKeywords ∨ e.keywords = particularKeywords ∨
      e.keywords = withdrawKeywords ∨ e.keywords = depositKeywords) ∧
    find e.keywords cols = none := by
  unfold resolveColumns at h
  cases hd : find dateKeywords cols with
  | none =>
    simp only [hd, Except.error.injEq] at h
    subst h
    exact ⟨rfl, Or.inl rfl, hd⟩
  | some d =>
    simp only [hd] at h
    cases hp : find particularKeywords cols with
    | none =>
      simp only [hp, Except.error.injEq] at h
      subst h
      exact ⟨rfl, Or.inr (Or.inl rfl), hp⟩
    | some p =>
      simp only [hp] at h
      cases hw : find withdrawKeywords cols with
      | none =>
        simp only [hw, Except.error.injEq] at h
        subst h
        exact ⟨rfl, Or.inr (Or.inr (Or.inl rfl)), hw⟩
      | some w =>
        simp only [hw] at h
        cases hdep : find depositKeywords cols with
        | none =>
          simp only [hdep, Except.error.injEq] at h
          subst h
          exact ⟨rfl, Or.inr (Or.inr (Or.inr rfl)), hdep⟩
        | some dep =>
          simp only [hdep] at h
          exact absurd h (by simp)

/-- C9: when a mandatory logical field matches no header column, the run
aborts (nonzero exit) with an error carrying the attempted keyword list
and the detected header cells, and no output is produced: the writer is
unreachable. -/
theorem c9_missing_mandatory_aborts (rows : List (List String)) (i : ℕ)
    (e : ColumnResolutionError)
    (hh : header_row_idx rows = some i)
    (hr : resolveColumns ((rows.getD i []).map normHeaderCell) = .error e) :
    program rows = .error (.columnResolution e) ∧
    e.header = (rows.getD i []).map normHeaderCell ∧
    (e.keywords = dateKeywords ∨ e.keywords = particularKeywords ∨
      e.keywords = withdrawKeywords ∨ e.keywords = depositKeywords) ∧
    find e.keywords e.header = none ∧
    ∀ out, program rows ≠ .ok out := by
  have hana := resolveColumns_error_cases _ _ hr
  have hprog : program rows = .error (.columnResolution e) := by
    unfold program
    simp only [hh, hr]
  refine ⟨hprog, hana.1, hana.2.1, ?_, ?_⟩
  · rw [hana.1]
    exact hana.2.2
  · intro out hout
    rw [hprog] at hout
    exact absurd hout (by simp)

/-- C9 witness: a header with no withdrawal-like column makes the whole
program abort with the withdrawal keywords and the header in the report. -/
theorem c9_missing_mandatory_witness :
    program [["date", "particulars"]] =
      .error (.columnResolution ⟨withdrawKeywords, ["date", "particulars"]⟩) :=
  (c9_missing_mandatory_aborts [["date", "particulars"]] 0
    ⟨withdrawKeywords, ["date", "particulars"]⟩ rfl rfl).1

/-- In a list made of an all-valid-serial block followed by an
all-missing-serial block, every missing-serial position lies after every
valid-serial position. -/
theorem append_blocks_position (A B : List OutRow)
    (hmA : ∀ x ∈ A, x.slno.isSome = true) (hmB : ∀ x ∈ B, x.slno.isSome = false)
    (i j : ℕ) (hj : j < (A ++ B).length)
    (hnone : ((A ++ B).getD i defOutRow).slno = none)
    (hsome : ((A ++ B).getD j defOutRow).slno.isSome = true) : j < i := by
  have hiA : A.length ≤ i := by
    by_contra hlt
    push_neg at hlt
    have hgd := List.getD_append A B defOutRow i hlt
    have hmem : A.getD i defOutRow ∈ A := by
      rw [List.getD_eq_getElem A defOutRow hlt]
      exact List.getElem_mem hlt
    have hsm := hmA _ hmem
    rw [hgd] at hnone
    rw [hnone] at hsm
    exact absurd hsm (by simp)
  have hjA : j < A.length := by
    by_contra hge
    push_neg at hge
    have hgd := List.getD_append_right A B defOutRow j hge
    have hlt' : j - A.length < B.length := by
      rw [List.length_append] at hj
      omega
    have hmem : B.getD (j - A.length) defOutRow ∈ B := by
      rw [List.getD_eq_getElem B defOutRow hlt']
      exact List.getElem_mem hlt'
    have hsm := hmB _ hmem
    rw [hgd] at hsome
    rw [hsm] at hsome
    exact absurd hsome (by simp)
  omega

/-- C10: forward-fill leaves a leading run of missing serials missing
(nothing precedes to propagate), and the final sort places every
missing-serial row after all rows with numeric serials. -/
theorem c10_leading_missing_serials :
    (∀ (l : List (Option ℚ)) (i : ℕ), i < l.length →
      (∀ j, j ≤ i → l.getD j none = none) → (ffill l).getD i none = none) ∧
    (∀ (rows : List OutRow) (i j : ℕ), j < (sortBySerial rows).length →
      ((sortBySerial rows).getD i defOutRow).slno = none →
      ((sortBySerial rows).getD j defOutRow).slno.isSome = true → j < i) := by
  constructor
  · intro l i hi hall
    rw [ffill_getD l i hi]
    exact lastValidUpTo_none l i hall
  · intro rows i j hj hnone hsome
    simp only [sortBySerial] at hj hnone hsome
    refine append_blocks_position _ _ ?_ ?_ i j hj hnone hsome
    · intro x hx
      rw [List.mem_insertionSort] at hx
      exact (List.mem_filter.mp hx).2
    · intro x hx
      have h2 := (List.mem_filter.mp hx).2
      cases hxs : x.slno with
      | none => simp
      | some v =>
        rw [hxs] at h2
        exact absurd h2 (by simp)

/-- C10 witness: on a concrete ledger a leading missing serial stays
missing through forward fill, and a concrete missing-serial row sorts
after the numeric-serial row. -/
theorem c10_leading_missing_serials_witness :
    (ffill [none, some 1]).getD 0 none = none ∧
    (0 : ℕ) < 1 ∧
    ((sortBySerial [defOutRow, ⟨some 1, "d", "p", 2⟩]).getD 0 defOutRow).slno.isSome =
      true ∧
    ((sortBySerial [defOutRow, ⟨some 1, "d", "p", 2⟩]).getD 1 defOutRow).slno = none := by
  refine ⟨?_, ?_, ?_, ?_⟩
  · exact c10_leading_missing_serials.1 [none, some 1] 0 (by decide)
      (fun j hj => by
        have hj0 : j = 0 := by omega
        subst hj0
        rfl)
  · exact c10_leading_missing_serials.2 [defOutRow, ⟨some 1, "d", "p", 2⟩] 1 0
      (by simp [sortBySerial, defOutRow]) (by simp [sortBySerial, defOutRow])
      (by simp [sortBySerial, defOutRow])
  · simp [sortBySerial, defOutRow]
  · simp [sortBySerial, defOutRow]

end FinanceAnalysis
